import Mathlib

/-!
Verification of the Etherscan ingestion pipeline
(`src/assignment/ingest.py`) against its natural-language specification.

The Python source is shallowly embedded: pure helpers become Lean
functions, the producer/consumer loops become explicit step functions on
state records, the relational store becomes a list with an explicit
uniqueness check, and Python exceptions become `Option`/sum results.
Configuration values (`RECORD_RETRIEVAL_LIMIT`, `BASE_BLOCK_ATTEMPT`,
`BLOCK_ATTEMPTS`, `SAVE_BATCH_LIMIT`, retry counts) are parameters of the
embedded functions, since `config.py` only injects constants.
-/

/-- A raw transfer record as returned by the Etherscan API: a string-keyed
mapping; the fields the source reads. All fields are strings, as in the
JSON body. -/
structure RawRecord where
  blockNumber : String
  timeStamp : String
  hash : String
  fromAddr : String
  toAddr : String
  value : String
  gas : String
  gasUsed : String
  isError : String
  deriving DecidableEq, Repr

/-- Digits of a decimal literal folded to a natural number. -/
def digitsToNat (l : List Char) : Nat :=
  l.foldl (fun acc c => acc * 10 + (c.toNat - 48)) 0

/-- Python `int(s)` on a decimal string: optional leading minus sign then
one or more digits; anything else raises `ValueError`, modelled as
`none`. -/
def pyInt (s : String) : Option Int :=
  match s.toList with
  | [] => none
  | '-' :: rest =>
      if rest ≠ [] ∧ rest.all Char.isDigit then some (-(digitsToNat rest : Int))
      else none
  | cs =>
      if cs.all Char.isDigit then some (digitsToNat cs) else none

/-- The persisted `Transaction` row (`models.Transaction`) as constructed
by the consumer at `ingest.py` lines 203-213. The address ids are
`Option Nat` because `__get_or_create_address` returns `None` on an
unclassified error. The timestamp is kept as the parsed epoch integer
(`datetime.fromtimestamp` is a pure re-encoding of it). -/
structure Txn where
  block_number : Int
  time_stamp : Int
  hash : String
  from_address_id : Option Nat
  to_address_id : Option Nat
  value : Int
  gas : Int
  gas_used : Int
  is_error : Int
  deriving DecidableEq, Repr

/-- The generator `__block_ranges(start, end, step)` (`ingest.py` lines 111-115): yield
`(current, min(current+step-1, end))` and advance `current` by `step`
while `current <= end`. The `1 ≤ step` conjunct in the guard is a
termination artifact: with `step = 0` the Python generator never
terminates, and no claim concerns that case. -/
def blockRanges (start endB step : Nat) : List (Nat × Nat) :=
  if _h : start ≤ endB ∧ 1 ≤ step then
    (start, min (start + step - 1) endB) :: blockRanges (start + step) endB step
  else []
termination_by endB + 1 - start
decreasing_by omega

/-- The inclusive block numbers covered by one yielded range. -/
def rangeBlocks (p : Nat × Nat) : List Nat :=
  (List.range (p.2 + 1 - p.1)).map (p.1 + ·)

/-- The producer's filter-and-enqueue loop (`ingest.py` lines 171-173):
`int(tx["value"]) > 0 and tx["isError"] != "1"`. A record whose `value`
does not parse raises out of the loop (`none`); otherwise the kept
records, in order, are pushed onto the shared queue. -/
def enqueueLoop : List RawRecord → Option (List RawRecord)
  | [] => some []
  | tx :: rest =>
      (pyInt tx.value).bind (fun v =>
        if 0 < v ∧ tx.isError ≠ "1" then (enqueueLoop rest).map (tx :: ·)
        else enqueueLoop rest)

/-! ## Producer worker (`call_api_and_produce`, `ingest.py` lines 118-187)

The remote API is abstracted as a total function from `(startblock,
endblock)` to the `result` list of the response (claims C4 and C5 assume
the call itself succeeds; the retry behaviour of `__call_etherscan` is
modelled separately below). One iteration of the producer's outer `while`
loop becomes a step function; the inner overflow-shrinking `while` loop
takes explicit fuel because the source gives no bound on it. -/

/-- Mutable state of one producer worker between outer-loop iterations:
the `current_block` cursor, `block_window_amount`, and the records pushed
onto the shared queue so far (in order). -/
structure ProdState where
  currentBlock : Nat
  blockWindow : Nat
  queued : List RawRecord
  deriving DecidableEq, Repr

/-- The inner overflow loop (`ingest.py` lines 149-163): while the result
still has at least `limit` records, pick the next attempt window
(`BLOCK_ATTEMPTS[idx]`, falling back to `20` when the list is exhausted),
recompute the tentative end, re-query the same `current_block`, and
advance the attempt index. Returns the final `(result, tentative_end,
window)` or `none` when the given fuel runs out before the result drops
below the limit. -/
def shrinkLoop (limit : Nat) (attempts : List Nat) (api : Nat → Nat → List RawRecord)
    (endingBlock current : Nat) :
    Nat → List RawRecord → Nat → Nat → Nat → Option (List RawRecord × Nat × Nat)
  | 0, data, te, win, _ =>
      if limit ≤ data.length then none else some (data, te, win)
  | fuel + 1, data, te, win, idx =>
      if limit ≤ data.length then
        let win' := attempts.getD idx 20
        let te' := min (current + win') endingBlock
        shrinkLoop limit attempts api endingBlock current fuel (api current te') te' win' (idx + 1)
      else some (data, te, win)

/-- Outcome of one iteration of the producer's outer loop. -/
inductive ProdStep where
  | done
  | next (s : ProdState)
  | raised
  | innerDiverged
  deriving DecidableEq, Repr

/-- One iteration of the producer's outer `while current_block <=
ending_block` loop (`ingest.py` lines 130-179): compute `tentative_end =
min(current_block + BASE_BLOCK_ATTEMPT, ending_block)`, query; on an
empty result advance past the tentative end and continue; otherwise run
the overflow loop, filter-and-enqueue the final result, and — only if
that final result is non-empty — advance `current_block` to
`tentative_end + 1` and reset the window to the base value. -/
def producerIter (limit base : Nat) (attempts : List Nat)
    (api : Nat → Nat → List RawRecord) (endingBlock fuel : Nat) (s : ProdState) : ProdStep :=
  if endingBlock < s.currentBlock then .done
  else
    let te := min (s.currentBlock + base) endingBlock
    let data := api s.currentBlock te
    if data = [] then .next ⟨te + 1, s.blockWindow, s.queued⟩
    else
      match shrinkLoop limit attempts api endingBlock s.currentBlock fuel data te s.blockWindow 0 with
      | none => .innerDiverged
      | some (data', te', win') =>
          match enqueueLoop data' with
          | none => .raised
          | some q =>
              if data' = [] then .next ⟨s.currentBlock, win', s.queued ++ q⟩
              else .next ⟨te' + 1, base, s.queued ++ q⟩

/-- A synthetic API stub: any window of at least 100 blocks returns two
records (the page limit in this configuration); any smaller window
returns no records. -/
def stubApi (c te : Nat) : List RawRecord :=
  if c + 100 ≤ te then
    [⟨"1", "1", "h1", "a", "b", "5", "9", "9", "0"⟩,
     ⟨"2", "2", "h2", "a", "b", "6", "9", "9", "0"⟩]
  else []

/-! ## Remote ledger client (`__call_etherscan`, `ingest.py` lines 37-58)

Each attempt of the retry loop is abstracted as one element of a response
sequence: the parsed body with `result != 'Max rate limit reached'`, the
rate-limited body, or a raised transport/parse error (`requests.get` or
`.json()` raising). The semaphore acquisition count is threaded through
explicitly: the `with api_call_semaphore` block acquires once per
attempt, including an attempt that raises. -/

/-- What one attempt of the retry loop observes. -/
inductive Attempt where
  | ok (result : List RawRecord)
  | rateLimited
  | transportError (msg : String)
  deriving DecidableEq, Repr

/-- How `__call_etherscan` ends. -/
inductive CallOutcome where
  | returned (data : List RawRecord)
  | exhausted
  | raisedTransport (msg : String)
  deriving DecidableEq, Repr

/-- The retry loop of `__call_etherscan` from attempt `i` with `acq`
semaphore acquisitions so far: stop after `retries` attempts; a
rate-limited body continues the loop, any other body is returned, a
transport or parse error propagates at once. -/
def callGo (resp : Nat → Attempt) (retries i acq : Nat) : CallOutcome × Nat :=
  if _h : i < retries then
    match resp i with
    | .transportError m => (.raisedTransport m, acq + 1)
    | .rateLimited => callGo resp retries (i + 1) (acq + 1)
    | .ok d => (.returned d, acq + 1)
  else (.exhausted, acq)
termination_by retries - i

/-- The function `__call_etherscan` itself: run the retry loop from attempt 0; on
exhaustion, `__log_thread_error(thread_id, startblock, endblock)` is
emitted before the final raise — the third component records that log
entry. -/
def callEtherscan (resp : Nat → Attempt) (threadId startb endb retries : Nat) :
    CallOutcome × Nat × Option (Nat × Nat × Nat) :=
  match callGo resp retries 0 0 with
  | (.exhausted, a) => (.exhausted, a, some (threadId, startb, endb))
  | (o, a) => (o, a, none)

/-! ## Batch persistence (`__save`, `ingest.py` lines 85-108)

The transactions table is a list of `Txn` rows in insertion order.
`models.py` (the schema) is not under `src/`; its hash-uniqueness
constraint is modelled from the spec below. -/

/-- First hash in `batch` that collides with an already-taken hash —
either one persisted in `taken` or one occurring earlier in the batch. -/
def firstConflict (taken : List String) : List Txn → Option String
  | [] => none
  | tx :: rest =>
      if tx.hash ∈ taken then some tx.hash
      else firstConflict (taken ++ [tx.hash]) rest

/-- Modelled from the spec: the `transactions` table carries a unique
constraint on `hash` (`models.py`, not under `src/`; spec §3 and §6:
"transactions(..., hash UNIQUE)"). `session.bulk_save_objects` followed
by `session.commit()` inserts the whole batch atomically: if any row's
hash collides with a persisted row or an earlier row of the same batch,
the commit raises `IntegrityError` naming the conflicting hash and the
store is left unchanged; otherwise all rows are appended. -/
def bulkInsert (db batch : List Txn) : Except String (List Txn) :=
  match firstConflict (db.map (fun tx => tx.hash)) batch with
  | some h => .error h
  | none => .ok (db ++ batch)

/-- What `__save` logs on the conflict path (`ingest.py` lines 93-104):
the conflicting hash extracted from the error, the colliding in-memory
entities, and the pre-existing persisted row. -/
structure ConflictLog where
  conflictingHash : String
  inMemory : List Txn
  existing : Option Txn
  deriving DecidableEq, Repr

/-- The function `__save(session, transactions_to_batch, thread_id)` (`ingest.py`
lines 85-108): commit the batch; on success the batch list is cleared;
on `IntegrityError` the session is rolled back (store unchanged), the
conflict is logged, and the batch list is left as it was (the caller
drops it). Returns the store, the batch list as `__save` leaves it, and
the conflict log if any. -/
def save (db batch : List Txn) : List Txn × List Txn × Option ConflictLog :=
  match bulkInsert db batch with
  | .ok db' => (db', [], none)
  | .error h =>
      (db, batch,
        some ⟨h, batch.filter (fun tx => tx.hash = h),
          db.find? (fun tx => tx.hash = h)⟩)

/-- The consumer's flush site (`ingest.py` lines 216-217): call `__save`,
then clear the in-memory batch unconditionally — on success it is
already cleared, on conflict or failure it is dropped without retrying
any individual record. Returns the resulting store. -/
def flushBatch (db batch : List Txn) : List Txn :=
  (save db batch).1

/-! ## Consumer worker (`consume`, `ingest.py` lines 190-241)

The shared queue and completion event live in the environment: each
iteration of the consumer's `while` loop observes the event at the loop
guard, the queue contents at the `get`, and — because the coordinator
may set the event while the consumer is blocked in `get(timeout=5)` —
the event again at the `except queue.Empty` re-check. Identity
resolution (`__get_or_create_address`) is abstracted as a function from
an address string to `Option Nat`, exactly its return type: `some id`
normally, `none` after an unclassified error. -/

/-- What one iteration of the consumer loop observes of the shared
queue and the producers-finished event. The event is a one-way latch,
so `eventAtGuard → eventAtRecheck` in any real run. -/
structure Obs where
  eventAtGuard : Bool
  queue : List RawRecord
  eventAtRecheck : Bool
  deriving DecidableEq, Repr

/-- A consumer's private state: its in-memory batch and the transactions
table reachable through its session. -/
structure CState where
  batch : List Txn
  db : List Txn
  deriving DecidableEq, Repr

/-- Construction of the `Transaction` entity (`ingest.py` lines
203-213): the six numeric fields go through `int(...)`; a failure of any
of them raises `ValueError` (modelled as `none`). The address ids are
taken verbatim from the two `__get_or_create_address` results, which are
obtained before construction. -/
def parseTxn (resolver : String → Option Nat) (tx : RawRecord) : Option Txn :=
  match pyInt tx.blockNumber, pyInt tx.timeStamp, pyInt tx.value,
        pyInt tx.gas, pyInt tx.gasUsed, pyInt tx.isError with
  | some bn, some ts, some v, some g, some gu, some ie =>
      some ⟨bn, ts, tx.hash, resolver tx.fromAddr, resolver tx.toAddr, v, g, gu, ie⟩
  | _, _, _, _, _, _ => none

/-- Outcome of one iteration of the consumer's `while` loop. -/
inductive IterResult where
  | exitNormal (s : CState)
  | continueLoop (s : CState)
  | raised (s : CState)
  deriving DecidableEq, Repr

/-- One iteration of `while not producers_all_done_event.is_set() or not
transaction_queue.empty()` (`ingest.py` lines 197-232). Guard false →
leave the loop normally. Queue empty → `get(timeout=5)` raises
`queue.Empty` after the bounded wait; the handler re-checks the event
and either breaks or continues. Queue non-empty → pop one record,
resolve both addresses, construct the entity (a parse failure raises out
of the loop — the inner `except` only catches `queue.Empty`), append it
to the batch, and flush when the batch has reached `SAVE_BATCH_LIMIT`,
clearing the batch unconditionally afterwards. -/
def consumeIter (batchLimit : Nat) (resolver : String → Option Nat)
    (obs : Obs) (s : CState) : IterResult :=
  if obs.eventAtGuard = true ∧ obs.queue = [] then .exitNormal s
  else
    match obs.queue with
    | [] => if obs.eventAtRecheck = true then .exitNormal s else .continueLoop s
    | tx :: _ =>
        match parseTxn resolver tx with
        | none => .raised s
        | some txn =>
            let batch' := s.batch ++ [txn]
            if batchLimit ≤ batch'.length then
              .continueLoop ⟨[], flushBatch s.db batch'⟩
            else .continueLoop ⟨batch', s.db⟩

/-- How the consumer's `while` loop ends, with the consumer state at
that moment: a normal exit, an escaped exception, or (when the given
observation trace is too short to decide) still pending. -/
inductive LoopExit where
  | normal (s : CState)
  | raised (s : CState)
  | pending (s : CState)
  deriving DecidableEq, Repr

/-- The consumer's `while` loop driven by a trace of per-iteration
observations. -/
def consumeLoop (batchLimit : Nat) (resolver : String → Option Nat) :
    List Obs → CState → LoopExit
  | [], s => .pending s
  | obs :: rest, s =>
      match consumeIter batchLimit resolver obs s with
      | .exitNormal s' => .normal s'
      | .raised s' => .raised s'
      | .continueLoop s' => consumeLoop batchLimit resolver rest s'

instance : DecidableEq (Except String Unit) := fun a b =>
  match a, b with
  | .error x, .error y =>
      match decEq x y with
      | isTrue h => isTrue (h ▸ rfl)
      | isFalse h => isFalse (fun hc => h (Except.error.inj hc))
  | .ok x, .ok y =>
      match decEq x y with
      | isTrue h => isTrue (h ▸ rfl)
      | isFalse h => isFalse (fun hc => h (Except.ok.inj hc))
  | .error _, .ok _ => isFalse (fun hc => Except.noConfusion hc)
  | .ok _, .error _ => isFalse (fun hc => Except.noConfusion hc)

/-- What `consume` leaves behind for its caller: the value or exception
reaching `future.result()`, whether the `finally` block closed the
session, the final store, whether the final partial flush ran, and the
batch contents discarded on an error exit. -/
structure ConsumeResult where
  outcome : Except String Unit
  sessionClosed : Bool
  db : List Txn
  finalFlushRan : Bool
  droppedBatch : List Txn
  deriving DecidableEq, Repr

/-- The function `consume(transaction_queue, producers_all_done_event, thread_id)`
(`ingest.py` lines 190-241): run the loop; on normal exit flush any
remaining partial batch through `__save` (lines 234-236); an exception
escaping the loop is caught by `except Exception` (lines 237-238),
which logs and falls through — skipping the final flush; the `finally`
block closes the session on every path. `none` when the observation
trace ends before the loop does. -/
def consume (batchLimit : Nat) (resolver : String → Option Nat)
    (trace : List Obs) (db0 : List Txn) : Option ConsumeResult :=
  match consumeLoop batchLimit resolver trace ⟨[], db0⟩ with
  | .pending _ => none
  | .normal s =>
      if s.batch = [] then some ⟨.ok (), true, s.db, false, []⟩
      else some ⟨.ok (), true, flushBatch s.db s.batch, true, []⟩
  | .raised s => some ⟨.ok (), true, s.db, false, s.batch⟩

/-- A well-formed raw record used in concrete runs. -/
def recGood : RawRecord := ⟨"100", "1600", "hgood", "0xa", "0xb", "5", "21000", "20000", "0"⟩

/-- A raw record whose `blockNumber` does not parse as an integer. -/
def recBad : RawRecord := ⟨"x", "1600", "hbad", "0xa", "0xb", "5", "21000", "20000", "0"⟩

/-! ## Identity resolver under races (`__get_or_create_address`,
`ingest.py` lines 61-82)

The `addresses` table is a list of address strings in insertion order;
the surrogate id of a row is its 1-based position, which never changes
because rows are only ever appended (spec §3: never updated, never
deleted). `models.py` is not under `src/`; its `address UNIQUE`
constraint is modelled from the spec. A worker executes
`__get_or_create_address` in two observable steps against the shared
store: the initial `one_or_none` read, and the insert-commit — which,
under the uniqueness constraint, either appends the row or raises
`IntegrityError`, in which case the handler rolls the local transaction
back and re-reads the now-existing row (`ingest.py` lines 72-76). The
race window is between the two steps. -/

/-- Modelled from the spec: the surrogate id of an address string in the
`addresses` table — its 1-based insertion position (`addresses(id PK,
address UNIQUE)`, `models.py` not under `src/`). -/
def lookupId : List String → String → Option Nat
  | [], _ => none
  | a :: rest, x =>
      if a = x then some 1 else (lookupId rest x).map (· + 1)

/-- Modelled from the spec: the atomic insert-commit of a new Address
row under the uniqueness constraint, together with the source's
`IntegrityError` handler: if the string is already present the insert
conflicts, the local transaction is rolled back and the existing row is
re-read (`session.query(...).one()`); otherwise the row is appended and
receives the next surrogate id. -/
def insertOrConflict (db : List String) (x : String) : Nat × List String :=
  match lookupId db x with
  | some i => (i, db)
  | none => (db.length + 1, db ++ [x])

/-- Program counter of one worker running `__get_or_create_address x`:
before the initial read, between read and insert (the read found
nothing), or returned with an id. -/
inductive WState where
  | start
  | needInsert
  | done (id : Nat)
  deriving DecidableEq, Repr

/-- One observable step of a worker against the shared store. -/
def wstep (x : String) (db : List String) : WState → WState × List String
  | .start =>
      match lookupId db x with
      | some i => (.done i, db)
      | none => (.needInsert, db)
  | .needInsert =>
      let p := insertOrConflict db x
      (.done p.1, p.2)
  | .done i => (.done i, db)

/-- Two workers resolving the same string `x`, interleaved by a
schedule: `true` steps worker 1, `false` steps worker 2. -/
def raceRun (x : String) : List Bool → WState × WState × List String → WState × WState × List String
  | [], c => c
  | b :: rest, (w1, w2, db) =>
      if b then
        let p := wstep x db w1
        raceRun x rest (p.1, w2, p.2)
      else
        let p := wstep x db w2
        raceRun x rest (w1, p.1, p.2)

/-- The invariant tying worker results to the shared store: the string
occurs at most once, and every finished worker returned exactly the id
of the row holding the string. -/
def raceInv (x : String) (w1 w2 : WState) (db : List String) : Prop :=
  db.count x ≤ 1 ∧
  (∀ i, w1 = .done i → lookupId db x = some i) ∧
  (∀ i, w2 = .done i → lookupId db x = some i)

theorem blockRanges_cons (start endB step : Nat) (h1 : start ≤ endB) (h2 : 1 ≤ step) :
    blockRanges start endB step =
      (start, min (start + step - 1) endB) :: blockRanges (start + step) endB step := by
  rw [blockRanges]
  simp [h1, h2]

theorem blockRanges_nil (start endB step : Nat) (h : endB < start) :
    blockRanges start endB step = [] := by
  rw [blockRanges]
  have hn : ¬(start ≤ endB ∧ 1 ≤ step) := by omega
  simp [hn]

theorem rangeBlocks_eq (a b : Nat) :
    rangeBlocks (a, b) = (List.range (b + 1 - a)).map (a + ·) := rfl

theorem blockRanges_cover_aux (step : Nat) (h2 : 1 ≤ step) :
    ∀ n start endB, endB + 1 - start ≤ n → start ≤ endB →
      ((blockRanges start endB step).map rangeBlocks).flatten =
        (List.range (endB + 1 - start)).map (start + ·) := by
  intro n
  induction n with
  | zero => intro start endB hn h1; omega
  | succ n ih =>
      intro start endB hn h1
      rw [blockRanges_cons start endB step h1 h2]
      by_cases hcase : start + step ≤ endB
      · have hmin : min (start + step - 1) endB = start + step - 1 := by omega
        have hrec := ih (start + step) endB (by omega) hcase
        simp only [List.map_cons, List.flatten_cons, hmin, hrec, rangeBlocks_eq]
        have hsplit : endB + 1 - start = step + (endB + 1 - (start + step)) := by omega
        have hlen : start + step - 1 + 1 - start = step := by omega
        rw [hsplit, List.range_add, List.map_append, List.map_map, hlen]
        congr 1
        apply List.map_congr_left
        intro x _
        simp only [Function.comp_apply]
        omega
      · have hmin : min (start + step - 1) endB = endB := by omega
        rw [blockRanges_nil (start + step) endB step (by omega)]
        simp [hmin, rangeBlocks_eq]

/-- C3: for every `(start, end, step)` with `start ≤ end` and `step ≥ 1`,
the range partitioner yields the pair `(start, min(start+step-1, end))`
followed by the ranges from cursor `start+step`, and the concatenation of
the blocks of all yielded ranges is exactly the interval
`[start, end]` in order — each block covered exactly once, no gap, no
overlap. -/
theorem c3_range_partitioner_coverage (start endB step : Nat)
    (h1 : start ≤ endB) (h2 : 1 ≤ step) :
    blockRanges start endB step =
      (start, min (start + step - 1) endB) :: blockRanges (start + step) endB step ∧
    ((blockRanges start endB step).map rangeBlocks).flatten =
      (List.range (endB + 1 - start)).map (start + ·) := by
  refine ⟨blockRanges_cons start endB step h1 h2, ?_⟩
  exact blockRanges_cover_aux step h2 (endB + 1 - start) start endB (le_refl _) h1

/-- Witness for C3 at `(100, 250, 100)`: the partitioner yields
`[(100,199),(200,250)]` and the coverage property holds there. -/
theorem c3_range_partitioner_coverage_witness :
    blockRanges 100 250 100 = [(100, 199), (200, 250)] ∧
    (((blockRanges 100 250 100).map rangeBlocks).flatten =
      (List.range (250 + 1 - 100)).map (100 + ·)) := by
  refine ⟨?_, (c3_range_partitioner_coverage 100 250 100 (by norm_num) (by norm_num)).2⟩
  rw [blockRanges_cons 100 250 100 (by norm_num) (by norm_num),
      blockRanges_cons 200 250 100 (by norm_num) (by norm_num),
      blockRanges_nil 300 250 100 (by norm_num)]
  norm_num

/-- C5: a raw record handed to the producer's enqueue loop ends up on the
shared queue exactly when its `value` parses to a positive integer and
its `isError` flag is not `"1"`; in particular a record with value 0 or
`isError = "1"` is never enqueued, and a well-formed record with positive
value and `isError = "0"` always is. -/
theorem c5_filter_correctness (txs q : List RawRecord)
    (h : enqueueLoop txs = some q) (tx : RawRecord) :
    tx ∈ q ↔ tx ∈ txs ∧ ∃ v, pyInt tx.value = some v ∧ 0 < v ∧ tx.isError ≠ "1" := by
  induction txs generalizing q with
  | nil =>
      simp only [enqueueLoop, Option.some_inj] at h
      subst h
      simp
  | cons hd rest ih =>
      simp only [enqueueLoop] at h
      cases hv : pyInt hd.value with
      | none => rw [hv] at h; exact absurd h (by simp)
      | some v =>
          rw [hv] at h
          simp only [Option.some_bind] at h
          by_cases hk : 0 < v ∧ hd.isError ≠ "1"
          · rw [if_pos hk] at h
            cases hq : enqueueLoop rest with
            | none => rw [hq] at h; exact absurd h (by simp)
            | some q' =>
                rw [hq] at h
                simp only [Option.map_some', Option.some_inj] at h
                subst h
                constructor
                · intro hmem
                  rcases List.mem_cons.mp hmem with heq | hmem'
                  · subst heq
                    exact ⟨List.mem_cons_self _ _, v, hv, hk.1, hk.2⟩
                  · have := (ih q' hq).mp hmem'
                    exact ⟨List.mem_cons_of_mem _ this.1, this.2⟩
                · rintro ⟨hmem, v', hv', hpos, herr⟩
                  rcases List.mem_cons.mp hmem with heq | hmem'
                  · subst heq; exact List.mem_cons_self _ _
                  · exact List.mem_cons_of_mem _
                      ((ih q' hq).mpr ⟨hmem', v', hv', hpos, herr⟩)
          · rw [if_neg hk] at h
            constructor
            · intro hmem
              have := (ih q h).mp hmem
              exact ⟨List.mem_cons_of_mem _ this.1, this.2⟩
            · rintro ⟨hmem, v', hv', hpos, herr⟩
              rcases List.mem_cons.mp hmem with heq | hmem'
              · subst heq
                rw [hv] at hv'
                have : v = v' := by injection hv'
                subst this
                exact absurd ⟨hpos, herr⟩ hk
              · exact (ih q h).mpr ⟨hmem', v', hv', hpos, herr⟩

/-- Witness for C5: with one qualifying and two disqualified records, the
qualifying record is enqueued and the others are not. -/
theorem c5_filter_correctness_witness :
    (enqueueLoop
      [⟨"1", "1", "h1", "a", "b", "5", "9", "9", "0"⟩,
       ⟨"2", "2", "h2", "a", "b", "0", "9", "9", "0"⟩,
       ⟨"3", "3", "h3", "a", "b", "7", "9", "9", "1"⟩] =
      some [⟨"1", "1", "h1", "a", "b", "5", "9", "9", "0"⟩]) ∧
    ((⟨"1", "1", "h1", "a", "b", "5", "9", "9", "0"⟩ : RawRecord) ∈
        [(⟨"1", "1", "h1", "a", "b", "5", "9", "9", "0"⟩ : RawRecord)] ↔
      (⟨"1", "1", "h1", "a", "b", "5", "9", "9", "0"⟩ : RawRecord) ∈
        [⟨"1", "1", "h1", "a", "b", "5", "9", "9", "0"⟩,
         ⟨"2", "2", "h2", "a", "b", "0", "9", "9", "0"⟩,
         ⟨"3", "3", "h3", "a", "b", "7", "9", "9", "1"⟩] ∧
      ∃ v, pyInt "5" = some v ∧ 0 < v ∧ ("0" : String) ≠ "1") :=
  ⟨by decide,
   c5_filter_correctness _ _ (by decide) ⟨"1", "1", "h1", "a", "b", "5", "9", "9", "0"⟩⟩

/-- C4 (failing input): with page limit 2, base window 100, attempt list
`[20]`, range `[0, 1000]`, and `stubApi` — which returns the full page
for the base window and an empty result for the shrunk window — the
producer's outer loop reaches the state `⟨0, 20, []⟩` and then maps that
state to itself forever: `current_block` is never advanced because the
advance at `ingest.py` line 175-179 is guarded by `if data["result"]`,
which is false for the empty post-overflow response. The claim's required
behaviour (always advance to `tentative_end + 1` after overflow handling,
including on an empty final response) fails, and the loop never
terminates. -/
theorem c4_overflow_empty_response_no_advance :
    producerIter 2 100 [20] stubApi 1000 5 ⟨0, 100, []⟩ = .next ⟨0, 20, []⟩ ∧
    producerIter 2 100 [20] stubApi 1000 5 ⟨0, 20, []⟩ = .next ⟨0, 20, []⟩ ∧
    (⟨0, 20, []⟩ : ProdState).currentBlock ≤ 1000 := by
  refine ⟨?_, ?_, by decide⟩ <;> decide

theorem callGo_lt (resp : Nat → Attempt) (retries i acq : Nat) (h : i < retries) :
    callGo resp retries i acq =
      match resp i with
      | .transportError m => (.raisedTransport m, acq + 1)
      | .rateLimited => callGo resp retries (i + 1) (acq + 1)
      | .ok d => (.returned d, acq + 1) := by
  rw [callGo]
  simp [h]

theorem callGo_ge (resp : Nat → Attempt) (retries i acq : Nat) (h : ¬ i < retries) :
    callGo resp retries i acq = (.exhausted, acq) := by
  rw [callGo]
  simp [h]

theorem callGo_all_rateLimited (resp : Nat → Attempt) (retries : Nat) :
    ∀ n i acq, retries - i ≤ n → (∀ j, i ≤ j → j < retries → resp j = .rateLimited) →
      callGo resp retries i acq = (.exhausted, acq + (retries - i)) := by
  intro n
  induction n with
  | zero =>
      intro i acq hn _
      have h : ¬ i < retries := by omega
      rw [callGo_ge resp retries i acq h]
      have he : retries - i = 0 := by omega
      rw [he]
      simp
  | succ n ih =>
      intro i acq hn hall
      by_cases h : i < retries
      · rw [callGo_lt resp retries i acq h, hall i (le_refl i) h]
        have hrec := ih (i + 1) (acq + 1) (by omega)
          (fun j hj hj2 => hall j (by omega) hj2)
        simp only [hrec]
        have : acq + 1 + (retries - (i + 1)) = acq + (retries - i) := by omega
        rw [this]
      · rw [callGo_ge resp retries i acq h]
        have he : retries - i = 0 := by omega
        rw [he]
        simp

theorem callGo_skip_rateLimited (resp : Nat → Attempt) (retries : Nat) :
    ∀ n i k acq, k - i ≤ n → i ≤ k → k ≤ retries →
      (∀ j, i ≤ j → j < k → resp j = .rateLimited) →
      callGo resp retries i acq = callGo resp retries k (acq + (k - i)) := by
  intro n
  induction n with
  | zero =>
      intro i k acq hn hik _ _
      have he : k = i := by omega
      subst he
      simp
  | succ n ih =>
      intro i k acq hn hik hkr hall
      by_cases he : i = k
      · subst he; simp
      · have hlt : i < retries := by omega
        rw [callGo_lt resp retries i acq hlt, hall i (le_refl i) (by omega)]
        have hrec := ih (i + 1) k (acq + 1) (by omega) (by omega) hkr
          (fun j hj hj2 => hall j (by omega) hj2)
        simp only [hrec]
        have : acq + 1 + (k - (i + 1)) = acq + (k - i) := by omega
        rw [this]

/-- C8: for the remote ledger client, (a) when every one of the `retries`
attempts observes the application-level rate-limited body, the call
acquires the rate limiter once per attempt — `retries` times in all —
and ends exhausted, with the block range and caller identity logged;
(b) when the first non-rate-limited observation is a normal body, it is
returned after `k+1` acquisitions (one per attempt up to it); (c) when
the first non-rate-limited observation is a transport or parse error, it
propagates unchanged after `k+1` acquisitions, with no further retry. -/
theorem c8_rate_limit_retry (resp : Nat → Attempt) (threadId startb endb retries : Nat) :
    ((∀ j, j < retries → resp j = .rateLimited) →
      callEtherscan resp threadId startb endb retries =
        (.exhausted, retries, some (threadId, startb, endb))) ∧
    (∀ k d, k < retries → (∀ j, j < k → resp j = .rateLimited) → resp k = .ok d →
      callEtherscan resp threadId startb endb retries = (.returned d, k + 1, none)) ∧
    (∀ k m, k < retries → (∀ j, j < k → resp j = .rateLimited) → resp k = .transportError m →
      callEtherscan resp threadId startb endb retries = (.raisedTransport m, k + 1, none)) := by
  refine ⟨?_, ?_, ?_⟩
  · intro hall
    have h := callGo_all_rateLimited resp retries retries 0 0 (by omega)
      (fun j _ hj2 => hall j hj2)
    rw [callEtherscan, h]
    simp
  · intro k d hk hall hok
    have h := callGo_skip_rateLimited resp retries k 0 k 0 (by omega) (by omega) (by omega)
      (fun j _ hj2 => hall j hj2)
    rw [callEtherscan, h, callGo_lt resp retries k (0 + (k - 0)) hk, hok]
    have : 0 + (k - 0) + 1 = k + 1 := by omega
    rw [this]
  · intro k m hk hall herr
    have h := callGo_skip_rateLimited resp retries k 0 k 0 (by omega) (by omega) (by omega)
      (fun j _ hj2 => hall j hj2)
    rw [callEtherscan, h, callGo_lt resp retries k (0 + (k - 0)) hk, herr]
    have : 0 + (k - 0) + 1 = k + 1 := by omega
    rw [this]

/-- Witness for C8 with the source's default retry count of 4: an
always-rate-limited response sequence exhausts after 4 acquisitions and
logs the range; a sequence whose second attempt succeeds returns after 2
acquisitions; a sequence whose second attempt raises propagates the
error after 2 acquisitions. -/
theorem c8_rate_limit_retry_witness :
    callEtherscan (fun _ => .rateLimited) 7 10 20 4 = (.exhausted, 4, some (7, 10, 20)) ∧
    callEtherscan (fun i => if i = 0 then .rateLimited else .ok []) 7 10 20 4 =
      (.returned [], 2, none) ∧
    callEtherscan (fun i => if i = 0 then .rateLimited else .transportError "boom") 7 10 20 4 =
      (.raisedTransport "boom", 2, none) := by
  refine ⟨?_, ?_, ?_⟩
  · exact (c8_rate_limit_retry (fun _ => .rateLimited) 7 10 20 4).1 (fun j _ => rfl)
  · exact (c8_rate_limit_retry (fun i => if i = 0 then .rateLimited else .ok []) 7 10 20 4).2.1
      1 [] (by omega) (fun j hj => by interval_cases j; rfl) rfl
  · exact (c8_rate_limit_retry
      (fun i => if i = 0 then .rateLimited else .transportError "boom") 7 10 20 4).2.2
      1 "boom" (by omega) (fun j hj => by interval_cases j; rfl) rfl

theorem firstConflict_none (taken : List String) (batch : List Txn)
    (h : firstConflict taken batch = none) :
    ∀ tx ∈ batch, tx.hash ∉ taken := by
  induction batch generalizing taken with
  | nil => intro tx htx; exact absurd htx (by simp)
  | cons hd rest ih =>
      simp only [firstConflict] at h
      by_cases hmem : hd.hash ∈ taken
      · rw [if_pos hmem] at h; exact absurd h (by simp)
      · rw [if_neg hmem] at h
        intro tx htx
        rcases List.mem_cons.mp htx with heq | hmem'
        · subst heq; exact hmem
        · intro hcon
          exact (ih (taken ++ [hd.hash]) h tx hmem') (List.mem_append_left _ hcon)

/-- C1: when a consumer flush collides on a transaction hash already
persisted, the whole flush is rolled back (the store is unchanged), the
conflict path is taken (a conflict log is produced, never a silent
duplicate), the flush site drops the entire in-memory batch, and the
store keeps exactly one row with that hash afterwards. -/
theorem c1_conflict_rollback_exactly_once (db batch : List Txn) (h : String)
    (hnd : (db.map (fun tx => tx.hash)).Nodup)
    (hdb : h ∈ db.map (fun tx => tx.hash))
    (hb : h ∈ batch.map (fun tx => tx.hash)) :
    (save db batch).1 = db ∧
    (save db batch).2.2.isSome ∧
    flushBatch db batch = db ∧
    (db.map (fun tx => tx.hash)).count h = 1 ∧
    ((flushBatch db batch).map (fun tx => tx.hash)).count h = 1 := by
  have hconf : firstConflict (db.map (fun tx => tx.hash)) batch ≠ none := by
    intro hnone
    rcases List.mem_map.mp hb with ⟨tx, htx, hh⟩
    exact (firstConflict_none _ _ hnone tx htx) (hh ▸ hdb)
  have hcount : (db.map (fun tx => tx.hash)).count h = 1 :=
    List.count_eq_one_of_mem hnd hdb
  cases hc : firstConflict (db.map (fun tx => tx.hash)) batch with
  | none => exact absurd hc hconf
  | some ch =>
      have hsave : save db batch =
          (db, batch,
            some ⟨ch, batch.filter (fun tx => tx.hash = ch),
              db.find? (fun tx => tx.hash = ch)⟩) := by
        rw [save, bulkInsert, hc]
      rw [flushBatch, hsave]
      exact ⟨rfl, rfl, rfl, hcount, hcount⟩

/-- Witness for C1: a one-element store and a batch whose single entry
repeats the persisted hash. -/
theorem c1_conflict_rollback_exactly_once_witness :
    (save [⟨1, 1, "hx", some 1, some 2, 5, 9, 9, 0⟩]
        [⟨2, 2, "hx", some 1, some 2, 6, 9, 9, 0⟩]).1 =
      [⟨1, 1, "hx", some 1, some 2, 5, 9, 9, 0⟩] ∧
    (save [⟨1, 1, "hx", some 1, some 2, 5, 9, 9, 0⟩]
        [⟨2, 2, "hx", some 1, some 2, 6, 9, 9, 0⟩]).2.2.isSome ∧
    flushBatch [⟨1, 1, "hx", some 1, some 2, 5, 9, 9, 0⟩]
        [⟨2, 2, "hx", some 1, some 2, 6, 9, 9, 0⟩] =
      [⟨1, 1, "hx", some 1, some 2, 5, 9, 9, 0⟩] ∧
    (([⟨1, 1, "hx", some 1, some 2, 5, 9, 9, 0⟩] : List Txn).map
        (fun tx => tx.hash)).count "hx" = 1 ∧
    ((flushBatch [⟨1, 1, "hx", some 1, some 2, 5, 9, 9, 0⟩]
        [⟨2, 2, "hx", some 1, some 2, 6, 9, 9, 0⟩]).map
        (fun tx => tx.hash)).count "hx" = 1 :=
  c1_conflict_rollback_exactly_once
    [⟨1, 1, "hx", some 1, some 2, 5, 9, 9, 0⟩]
    [⟨2, 2, "hx", some 1, some 2, 6, 9, 9, 0⟩] "hx"
    (by decide) (by decide) (by decide)

/-- C7: with the queue observed empty, the consumer leaves its loop as
soon as the completion signal is observed — immediately at the guard if
it is already set, or at the re-check after one bounded (5-time-unit)
wait otherwise — and keeps waiting when the signal is not set; and a
normal loop exit happens only when the queue is empty and the signal was
observed at the guard or at the re-check. -/
theorem c7_drain_completion (batchLimit : Nat) (resolver : String → Option Nat)
    (obs : Obs) (s : CState) :
    (obs.queue = [] → (obs.eventAtGuard = true ∨ obs.eventAtRecheck = true) →
      consumeIter batchLimit resolver obs s = .exitNormal s) ∧
    (obs.queue = [] → obs.eventAtGuard = false → obs.eventAtRecheck = false →
      consumeIter batchLimit resolver obs s = .continueLoop s) ∧
    (∀ s', consumeIter batchLimit resolver obs s = .exitNormal s' →
      s' = s ∧ obs.queue = [] ∧
        (obs.eventAtGuard = true ∨ obs.eventAtRecheck = true)) := by
  obtain ⟨e1, q, e2⟩ := obs
  refine ⟨?_, ?_, ?_⟩
  · rintro hq (he | he) <;> subst hq <;> simp_all [consumeIter]
  · intro hq hg hr
    subst hq
    simp_all [consumeIter]
  · intro s' hres
    cases q with
    | nil =>
        cases e1 with
        | true =>
            simp [consumeIter] at hres
            exact ⟨hres.symm, rfl, Or.inl rfl⟩
        | false =>
            cases e2 with
            | true =>
                simp [consumeIter] at hres
                exact ⟨hres.symm, rfl, Or.inr rfl⟩
            | false => simp [consumeIter] at hres
    | cons tx rest =>
        simp only [consumeIter] at hres
        rw [if_neg (by simp)] at hres
        cases hp : parseTxn resolver tx with
        | none => rw [hp] at hres; exact absurd hres (by simp)
        | some txn =>
            rw [hp] at hres
            simp only at hres
            split at hres <;> exact absurd hres (by simp)

/-- Witness for C7: a consumer with an empty queue exits at once when
the signal is set at the guard, and exits after the one bounded wait
when the signal is observed only at the re-check. -/
theorem c7_drain_completion_witness :
    consumeIter 10 (fun _ => some 1) ⟨true, [], true⟩ ⟨[], []⟩ = .exitNormal ⟨[], []⟩ ∧
    consumeIter 10 (fun _ => some 1) ⟨false, [], true⟩ ⟨[], []⟩ = .exitNormal ⟨[], []⟩ :=
  ⟨(c7_drain_completion 10 (fun _ => some 1) ⟨true, [], true⟩ ⟨[], []⟩).1 rfl (Or.inl rfl),
   (c7_drain_completion 10 (fun _ => some 1) ⟨false, [], true⟩ ⟨[], []⟩).1 rfl (Or.inr rfl)⟩

theorem parseTxn_fields (resolver : String → Option Nat) (tx : RawRecord) (txn : Txn)
    (h : parseTxn resolver tx = some txn) :
    txn.from_address_id = resolver tx.fromAddr ∧ txn.to_address_id = resolver tx.toAddr := by
  unfold parseTxn at h
  split at h
  · injection h with h'
    subst h'
    exact ⟨rfl, rfl⟩
  · exact absurd h (by simp)

/-- C2 counterexample: with identity resolution failing (an unclassified
error makes `__get_or_create_address` return `None`), the consumer does
not skip the dequeued record — it constructs a Transaction whose
`from_address_id` and `to_address_id` are both null and appends it to
its batch, contradicting the claim that every batched Transaction
references an existing Address row and that such records are skipped. -/
theorem c2_counterexample_unresolved_id_batched :
    consumeIter 10 (fun _ => none) ⟨false, [recGood], false⟩ ⟨[], []⟩ =
      .continueLoop ⟨[⟨100, 1600, "hgood", none, none, 5, 21000, 20000, 0⟩], []⟩ ∧
    (⟨100, 1600, "hgood", none, none, 5, 21000, 20000, 0⟩ : Txn).from_address_id = none := by
  exact ⟨by decide, rfl⟩

/-- C2 as amended: the consumer resolves both addresses before
constructing the Transaction and stores the resolver's results verbatim
in the entity; when resolution fails with an unclassified error the
entity carries a null `from_address_id` and is still appended to the
batch — the record is not skipped at this stage (it can only be
rejected later, at flush time). -/
theorem c2_resolution_failure_still_batched (batchLimit : Nat)
    (resolver : String → Option Nat) (obs : Obs) (tx : RawRecord)
    (rest : List RawRecord) (s : CState) (txn : Txn)
    (hq : obs.queue = tx :: rest)
    (hp : parseTxn resolver tx = some txn)
    (hf : resolver tx.fromAddr = none)
    (hlim : s.batch.length + 1 < batchLimit) :
    consumeIter batchLimit resolver obs s = .continueLoop ⟨s.batch ++ [txn], s.db⟩ ∧
    txn.from_address_id = none ∧
    txn.to_address_id = resolver tx.toAddr := by
  have hfields := parseTxn_fields resolver tx txn hp
  refine ⟨?_, hf ▸ hfields.1, hfields.2⟩
  simp only [consumeIter, hq]
  rw [if_neg (by simp), hp]
  simp only
  rw [if_neg (by simp; omega)]

/-- Witness for C2's amended statement at a concrete record with an
always-failing resolver. -/
theorem c2_resolution_failure_still_batched_witness :
    consumeIter 10 (fun _ => none) ⟨false, [recGood], false⟩ ⟨[], []⟩ =
      .continueLoop ⟨[] ++ [⟨100, 1600, "hgood", none, none, 5, 21000, 20000, 0⟩], []⟩ ∧
    (⟨100, 1600, "hgood", none, none, 5, 21000, 20000, 0⟩ : Txn).from_address_id = none ∧
    (⟨100, 1600, "hgood", none, none, 5, 21000, 20000, 0⟩ : Txn).to_address_id =
      (fun _ => (none : Option Nat)) recGood.toAddr :=
  c2_resolution_failure_still_batched 10 (fun _ => none) ⟨false, [recGood], false⟩
    recGood [] ⟨[], []⟩ ⟨100, 1600, "hgood", none, none, 5, 21000, 20000, 0⟩
    rfl (by decide) rfl (by decide)

theorem consume_pending_eq (batchLimit : Nat) (resolver : String → Option Nat)
    (trace : List Obs) (db0 : List Txn) (s : CState)
    (hl : consumeLoop batchLimit resolver trace ⟨[], db0⟩ = .pending s) :
    consume batchLimit resolver trace db0 = none := by
  rw [consume, hl]

theorem consume_normal_eq (batchLimit : Nat) (resolver : String → Option Nat)
    (trace : List Obs) (db0 : List Txn) (s : CState)
    (hl : consumeLoop batchLimit resolver trace ⟨[], db0⟩ = .normal s) :
    consume batchLimit resolver trace db0 =
      if s.batch = [] then some ⟨.ok (), true, s.db, false, []⟩
      else some ⟨.ok (), true, flushBatch s.db s.batch, true, []⟩ := by
  rw [consume, hl]

theorem consume_raised_eq (batchLimit : Nat) (resolver : String → Option Nat)
    (trace : List Obs) (db0 : List Txn) (s : CState)
    (hl : consumeLoop batchLimit resolver trace ⟨[], db0⟩ = .raised s) :
    consume batchLimit resolver trace db0 =
      some ⟨.ok (), true, s.db, false, s.batch⟩ := by
  rw [consume, hl]

/-- C9 counterexample: a run that processes one good record (batching
one entity) and then hits a malformed record. The resulting exception
escapes the loop, and the consumer exits with the session closed but
the non-empty partial batch dropped unflushed — the final-flush code at
`ingest.py` line 234 sits inside the `try` and is skipped on the error
path, contradicting the claim that every exit flushes the remaining
partial batch. -/
theorem c9_counterexample_error_exit_skips_flush :
    consume 10 (fun _ => some 1)
      [⟨false, [recGood], false⟩, ⟨false, [recBad], false⟩] [] =
      some ⟨.ok (), true, [], false,
        [⟨100, 1600, "hgood", some 1, some 1, 5, 21000, 20000, 0⟩]⟩ ∧
    ([⟨100, 1600, "hgood", some 1, some 1, 5, 21000, 20000, 0⟩] : List Txn) ≠ [] := by
  exact ⟨by decide, by decide⟩

/-- C9 as amended: on a normal exit of the consumer's loop, any
remaining partial batch is flushed through the same `__save` path; on an
error escaping the loop the final flush is skipped and the batch is
dropped; on both paths the session is closed via the guaranteed
`finally` cleanup. -/
theorem c9_exit_flush_and_cleanup (batchLimit : Nat) (resolver : String → Option Nat)
    (trace : List Obs) (db0 : List Txn) (s : CState) :
    (consumeLoop batchLimit resolver trace ⟨[], db0⟩ = .normal s → s.batch = [] →
      consume batchLimit resolver trace db0 = some ⟨.ok (), true, s.db, false, []⟩) ∧
    (consumeLoop batchLimit resolver trace ⟨[], db0⟩ = .normal s → s.batch ≠ [] →
      consume batchLimit resolver trace db0 =
        some ⟨.ok (), true, flushBatch s.db s.batch, true, []⟩) ∧
    (consumeLoop batchLimit resolver trace ⟨[], db0⟩ = .raised s →
      consume batchLimit resolver trace db0 = some ⟨.ok (), true, s.db, false, s.batch⟩) := by
  refine ⟨?_, ?_, ?_⟩
  · intro hl hb
    rw [consume, hl]
    simp [hb]
  · intro hl hb
    rw [consume, hl]
    simp [hb]
  · intro hl
    rw [consume, hl]

/-- Witness for C9's amended statement: a normal drain after one good
record flushes the one-element batch, and the error run closes the
session with the batch dropped. -/
theorem c9_exit_flush_and_cleanup_witness :
    consume 10 (fun _ => some 1) [⟨false, [recGood], false⟩, ⟨true, [], true⟩] [] =
      some ⟨.ok (), true,
        flushBatch [] [⟨100, 1600, "hgood", some 1, some 1, 5, 21000, 20000, 0⟩],
        true, []⟩ ∧
    consume 10 (fun _ => some 1) [⟨false, [recBad], false⟩] [] =
      some ⟨.ok (), true, [], false, []⟩ :=
  ⟨(c9_exit_flush_and_cleanup 10 (fun _ => some 1)
      [⟨false, [recGood], false⟩, ⟨true, [], true⟩] []
      ⟨[⟨100, 1600, "hgood", some 1, some 1, 5, 21000, 20000, 0⟩], []⟩).2.1
      (by decide) (by decide),
   (c9_exit_flush_and_cleanup 10 (fun _ => some 1)
      [⟨false, [recBad], false⟩] [] ⟨[], []⟩).2.2 (by decide)⟩

/-- C10: `consume` never propagates an exception to its caller — every
completed run returns normally (`future.result()` yields `None`) with
the session closed by the `finally` block; a run whose loop is escaped
by an exception still returns normally, with the pending batch silently
lost and the final flush skipped; and a dequeued record whose
`blockNumber` does not parse as an integer raises out of the loop with
the batch unchanged (the record itself is lost). -/
theorem c10_consume_never_propagates (batchLimit : Nat) (resolver : String → Option Nat)
    (trace : List Obs) (db0 : List Txn) :
    (∀ r, consume batchLimit resolver trace db0 = some r →
      r.outcome = .ok () ∧ r.sessionClosed = true) ∧
    (∀ s, consumeLoop batchLimit resolver trace ⟨[], db0⟩ = .raised s →
      consume batchLimit resolver trace db0 = some ⟨.ok (), true, s.db, false, s.batch⟩) ∧
    (∀ obs tx rest s, obs.queue = tx :: rest → pyInt tx.blockNumber = none →
      consumeIter batchLimit resolver obs s = .raised s) := by
  refine ⟨?_, ?_, ?_⟩
  · intro r hr
    cases hl : consumeLoop batchLimit resolver trace ⟨[], db0⟩ with
    | pending s =>
        rw [consume_pending_eq batchLimit resolver trace db0 s hl] at hr
        exact absurd hr (by simp)
    | normal s =>
        rw [consume_normal_eq batchLimit resolver trace db0 s hl] at hr
        by_cases hb : s.batch = []
        · rw [if_pos hb] at hr
          injection hr with h
          rw [← h]
          exact ⟨rfl, rfl⟩
        · rw [if_neg hb] at hr
          injection hr with h
          rw [← h]
          exact ⟨rfl, rfl⟩
    | raised s =>
        rw [consume_raised_eq batchLimit resolver trace db0 s hl] at hr
        injection hr with h
        rw [← h]
        exact ⟨rfl, rfl⟩
  · intro s hl
    exact consume_raised_eq batchLimit resolver trace db0 s hl
  · intro obs tx rest s hq hbn
    have hp : parseTxn resolver tx = none := by
      unfold parseTxn
      rw [hbn]
    simp only [consumeIter, hq]
    rw [if_neg (by simp), hp]

/-- Witness for C10: the malformed-record run completes with a normal
return and a closed session, and the malformed record raises at the
iteration level. -/
theorem c10_consume_never_propagates_witness :
    ((⟨.ok (), true, [], false, []⟩ : ConsumeResult).outcome = .ok () ∧
      (⟨.ok (), true, [], false, []⟩ : ConsumeResult).sessionClosed = true) ∧
    consumeIter 10 (fun _ => some 1) ⟨false, [recBad], false⟩ ⟨[], []⟩ = .raised ⟨[], []⟩ :=
  ⟨(c10_consume_never_propagates 10 (fun _ => some 1) [⟨false, [recBad], false⟩] []).1
      ⟨.ok (), true, [], false, []⟩ (by decide),
   (c10_consume_never_propagates 10 (fun _ => some 1) [⟨false, [recBad], false⟩] []).2.2
      ⟨false, [recBad], false⟩ recBad [] ⟨[], []⟩ rfl (by decide)⟩

theorem lookupId_cons (a : String) (rest : List String) (x : String) :
    lookupId (a :: rest) x =
      if a = x then some 1 else (lookupId rest x).map (· + 1) := rfl

theorem lookupId_append_of_mem (db : List String) (x : String) (y : String)
    (h : (lookupId db x).isSome) : lookupId (db ++ [y]) x = lookupId db x := by
  induction db with
  | nil => simp [lookupId] at h
  | cons a rest ih =>
      rw [lookupId_cons] at h
      rw [List.cons_append, lookupId_cons, lookupId_cons]
      by_cases ha : a = x
      · rw [if_pos ha, if_pos ha]
      · rw [if_neg ha] at h
        rw [if_neg ha, if_neg ha]
        cases hr : lookupId rest x with
        | none => rw [hr] at h; simp at h
        | some i => rw [ih (by rw [hr]; rfl), hr]

theorem lookupId_mem (db : List String) (x : String) :
    (lookupId db x).isSome ↔ x ∈ db := by
  induction db with
  | nil => simp [lookupId]
  | cons a rest ih =>
      rw [lookupId_cons]
      by_cases ha : a = x
      · rw [if_pos ha]; simp [ha]
      · rw [if_neg ha]
        constructor
        · intro h
          have hs : (lookupId rest x).isSome := by
            cases hr : lookupId rest x with
            | none => rw [hr] at h; simp at h
            | some i => rfl
          exact List.mem_cons_of_mem a (ih.mp hs)
        · intro h
          rcases List.mem_cons.mp h with heq | hmem
          · exact absurd heq.symm ha
          · have hs := ih.mpr hmem
            cases hr : lookupId rest x with
            | none => rw [hr] at hs; simp at hs
            | some i => rfl

theorem lookupId_self_append (db : List String) (x : String)
    (h : lookupId db x = none) : lookupId (db ++ [x]) x = some (db.length + 1) := by
  induction db with
  | nil => simp [lookupId]
  | cons a rest ih =>
      rw [lookupId_cons] at h
      rw [List.cons_append, lookupId_cons]
      by_cases ha : a = x
      · rw [if_pos ha] at h; exact absurd h (by simp)
      · rw [if_neg ha] at h
        rw [if_neg ha]
        have hr : lookupId rest x = none := by
          cases hr : lookupId rest x with
          | none => rfl
          | some i => rw [hr] at h; simp at h
        rw [ih hr]
        simp

theorem count_of_lookup_none (db : List String) (x : String)
    (h : lookupId db x = none) : db.count x = 0 := by
  rw [List.count_eq_zero]
  intro hmem
  have := (lookupId_mem db x).mpr hmem
  rw [h] at this
  simp at this

theorem wstep_preserves_inv (x : String) (w1 w2 : WState) (db : List String)
    (hinv : raceInv x w1 w2 db) :
    raceInv x (wstep x db w1).1 w2 (wstep x db w1).2 := by
  obtain ⟨hcount, h1, h2⟩ := hinv
  cases w1 with
  | start =>
      cases hl : lookupId db x with
      | some i =>
          simp only [wstep, hl]
          exact ⟨hcount, fun j hj => by injection hj with h'; rw [← h', hl], h2⟩
      | none => simp only [wstep, hl]; exact ⟨hcount, by simp, h2⟩
  | needInsert =>
      cases hl : lookupId db x with
      | some i =>
          simp only [wstep, insertOrConflict, hl]
          exact ⟨hcount, fun j hj => by injection hj with h'; rw [← h', hl], h2⟩
      | none =>
          simp only [wstep, insertOrConflict, hl]
          have hnew : lookupId (db ++ [x]) x = some (db.length + 1) :=
            lookupId_self_append db x hl
          refine ⟨?_, fun j hj => by injection hj with h'; rw [← h', hnew], ?_⟩
          · rw [List.count_append]
            have := count_of_lookup_none db x hl
            simp [this]
          · intro i hi
            have hold := h2 i hi
            rw [lookupId_append_of_mem db x x (by rw [hold]; rfl)]
            exact hold
  | done j =>
      simp only [wstep]
      exact ⟨hcount, h1, h2⟩

theorem wstep_preserves_inv_right (x : String) (w1 w2 : WState) (db : List String)
    (hinv : raceInv x w1 w2 db) :
    raceInv x w1 (wstep x db w2).1 (wstep x db w2).2 := by
  have hsw : raceInv x w2 w1 db := ⟨hinv.1, hinv.2.2, hinv.2.1⟩
  have := wstep_preserves_inv x w2 w1 db hsw
  exact ⟨this.1, this.2.2, this.2.1⟩

theorem raceRun_preserves_inv (x : String) (sched : List Bool) :
    ∀ w1 w2 db, raceInv x w1 w2 db →
      raceInv x (raceRun x sched (w1, w2, db)).1 (raceRun x sched (w1, w2, db)).2.1
        (raceRun x sched (w1, w2, db)).2.2 := by
  induction sched with
  | nil => intro w1 w2 db hinv; exact hinv
  | cons b rest ih =>
      intro w1 w2 db hinv
      cases b with
      | true =>
          simp only [raceRun, if_pos]
          exact ih _ _ _ (wstep_preserves_inv x w1 w2 db hinv)
      | false =>
          simp only [raceRun, if_neg]
          exact ih _ _ _ (wstep_preserves_inv_right x w1 w2 db hinv)

/-- C6: identity resolution is idempotent under races — for every
interleaving of two workers resolving the same address string over a
store in which the string occurs at most once, whenever both workers
have returned they returned the same id, that id is the one the store
holds for the string, and exactly one row with that string exists. The
conflict path (roll back, re-read `one()`, return the existing id) is
what makes the second inserter agree with the first. -/
theorem c6_idempotent_identity_resolution (x : String) (sched : List Bool)
    (db0 : List String) (i1 i2 : Nat)
    (hc : db0.count x ≤ 1)
    (h1 : (raceRun x sched (.start, .start, db0)).1 = .done i1)
    (h2 : (raceRun x sched (.start, .start, db0)).2.1 = .done i2) :
    i1 = i2 ∧
    lookupId (raceRun x sched (.start, .start, db0)).2.2 x = some i1 ∧
    (raceRun x sched (.start, .start, db0)).2.2.count x = 1 := by
  have hinv := raceRun_preserves_inv x sched .start .start db0
    ⟨hc, by simp, by simp⟩
  obtain ⟨hcount, hw1, hw2⟩ := hinv
  have e1 := hw1 i1 h1
  have e2 := hw2 i2 h2
  refine ⟨?_, e1, ?_⟩
  · rw [e1] at e2
    exact Option.some.inj e2
  · have hmem : x ∈ (raceRun x sched (.start, .start, db0)).2.2 :=
      (lookupId_mem _ x).mp (by rw [e1]; rfl)
    have hpos := List.count_pos_iff.mpr hmem
    omega

/-- Witness for C6: the tight race — both workers read (finding
nothing), then both try to insert; the second insert conflicts and
re-reads. Both return id 1 and one row exists. -/
theorem c6_idempotent_identity_resolution_witness :
    (1 : Nat) = 1 ∧
    lookupId (raceRun "0xabc" [true, false, true, false]
      (.start, .start, [])).2.2 "0xabc" = some 1 ∧
    (raceRun "0xabc" [true, false, true, false]
      (.start, .start, [])).2.2.count "0xabc" = 1 :=
  c6_idempotent_identity_resolution "0xabc" [true, false, true, false] [] 1 1
    (by decide) (by decide) (by decide)
